import Mathlib

/-!
Shallow embedding of the `atomicdex-gui-auth` security core
(`src/sign.rs` and `src/security/ip_status.rs`) and verification of its
specification.

Modelling conventions:
- Rust `String` values are modelled as lists of Unicode scalar values
  (`List Nat`), matching Rust's `str::chars` iteration; UTF-8 byte views
  (`str::len`, `str::as_bytes`) are recovered through an explicit UTF-8
  encoder `strBytes`.
- Machine integers (`i8`, `usize`) are modelled as `Int` / `Nat`; none of
  the embedded arithmetic wraps.
- External collaborators (the keccak256 hash, the secp256k1 sign /
  verify-address primitives, the chrono date parser, the redis transport)
  are universally quantified function parameters or explicit
  success/failure values; everything written in the repository itself is
  embedded concretely.
- A Rust panic (`unwrap`, out-of-bounds index) is modelled as `Option.none`
  in an `Option`-valued result; an `Err` return is `Except.error`.
-/

deriving instance DecidableEq for Except

namespace AtomicDexAuth

/-- Unicode scalar values of a Lean string literal; used to transcribe the
Rust string literals of the source. -/
def str (s : String) : List Nat := s.data.map Char.toNat

/-- Model of Rust `char::to_lowercase` / `to_ascii_lowercase` on the ASCII
range (the only range the source ever feeds it). -/
def toLowerCode (c : Nat) : Nat := if 65 ≤ c ∧ c ≤ 90 then c + 32 else c

/-- Model of Rust `char::to_ascii_uppercase` on the ASCII range. -/
def toUpperCode (c : Nat) : Nat := if 97 ≤ c ∧ c ≤ 122 then c - 32 else c

/-- Model of Rust `char::is_digit(10)`. -/
def isDigitCode (c : Nat) : Bool := decide (48 ≤ c ∧ c ≤ 57)

/-- UTF-8 encoding of one Unicode scalar value. -/
def utf8Bytes (c : Nat) : List Nat :=
  if c < 128 then [c]
  else if c < 2048 then [192 + c / 64, 128 + c % 64]
  else if c < 65536 then [224 + c / 4096, 128 + c / 64 % 64, 128 + c % 64]
  else [240 + c / 262144, 128 + c / 4096 % 64, 128 + c / 64 % 64, 128 + c % 64]

/-- UTF-8 byte sequence of a string (Rust `str::as_bytes`); its length is
Rust `str::len`. -/
def strBytes (s : List Nat) : List Nat := s.flatMap utf8Bytes

/-- Scalar values of the decimal representation of a natural number: what
Rust's `Display` for `usize` appends under `format!`. -/
def decimalCodes (n : Nat) : List Nat := (Nat.repr n).data.map Char.toNat

/-! ## IpStatus and the admission store (`src/security/ip_status.rs`) -/

/-- The `IpStatus` enum.  Discriminants in the source: `None = -1`,
`Trusted = 0`, `Blocked = 1`. -/
inductive IpStatus where
  | None
  | Trusted
  | Blocked
deriving DecidableEq, Repr

/-- `IpStatus::from_i8` (ip_status.rs lines 64-70): the explicit match with
default branch. -/
def IpStatus.from_i8 (value : Int) : IpStatus :=
  match value with
  | 0 => IpStatus.Trusted
  | 1 => IpStatus.Blocked
  | _ => IpStatus.None

/-- The integer written to the store by `insert_ip_status` (`status as i8`
in the source). -/
def IpStatus.as_i8 : IpStatus → Int
  | IpStatus.None => -1
  | IpStatus.Trusted => 0
  | IpStatus.Blocked => 1

/-- The redis hash at key `"status_list"`: a finite map from ip strings to
stored `i8` codes, modelled as an association list with unique keys kept in
insertion order. -/
abbrev StatusTable := List (String × Int)

/-- Effect of the redis `HSET` command on the modelled hash. -/
def redisHSet : StatusTable → String → Int → StatusTable
  | [], ip, v => [(ip, v)]
  | (k, w) :: rest, ip, v =>
    if k = ip then (k, v) :: rest else (k, w) :: redisHSet rest ip v

/-- Result of the redis `HGET` command on the modelled hash (`Option.none`
is the nil reply for an absent field). -/
def redisHGet : StatusTable → String → Option Int
  | [], _ => Option.none
  | (k, w) :: rest, ip => if k = ip then some w else redisHGet rest ip

/-- A store connection: either a live view of the hash table, or a
transport/command failure carrying an error message. -/
abbrev Connection := Except String StatusTable

/-- The raw outcome of `HGET … query_async::<IpStatus>`: a transport error
propagates; a nil reply fails inside `FromRedisValue` (nil is not
convertible to `i8`); a stored code is decoded through `IpStatus::from_i8`
(ip_status.rs lines 73-78). -/
def hgetStatusQuery (conn : Connection) (ip : String) : Except String IpStatus :=
  match conn with
  | Except.error e => Except.error e
  | Except.ok table =>
    match redisHGet table ip with
    | Option.none => Except.error "response was of incompatible type"
    | some v => Except.ok (IpStatus.from_i8 v)

/-- `Db::read_ip_status` (ip_status.rs lines 109-116): the query result with
`.unwrap_or(IpStatus::None)` applied. -/
def read_ip_status (conn : Connection) (ip : String) : IpStatus :=
  match hgetStatusQuery conn ip with
  | Except.ok s => s
  | Except.error _ => IpStatus.None

/-- `Db::insert_ip_status` (ip_status.rs lines 91-97): `HSET` of
`status as i8`, propagating a transport failure; the `.ok` payload is the
updated external hash. -/
def insert_ip_status (conn : Connection) (ip : String) (status : IpStatus) :
    Except String StatusTable :=
  match conn with
  | Except.error e => Except.error e
  | Except.ok table => Except.ok (redisHSet table ip status.as_i8)

/-- `Db::read_ip_status_list` (ip_status.rs lines 118-124): `HGETALL` of the
raw `(ip, i8)` pairs with `.unwrap_or_default()` applied. -/
def read_ip_status_list (conn : Connection) : StatusTable :=
  match conn with
  | Except.ok table => table
  | Except.error _ => []

/-- The JSON item `{ ip, status }` of the listing endpoint. -/
structure IpStatusPayload where
  ip : String
  status : Int
deriving DecidableEq, Repr

/-- The payload list serialized by `get_ip_status_list` (ip_status.rs lines
34-51); the HTTP/JSON wrapping itself is an external collaborator. -/
def get_ip_status_list (conn : Connection) : List IpStatusPayload :=
  (read_ip_status_list conn).map (fun v => ⟨v.1, v.2⟩)

/-! ## Address parsing and EIP-55 checksum (`src/sign.rs`) -/

/-- Strip a leading `"0x"` if present, keep the string otherwise.  Models
both the `starts_with("0x") / replace_range(..2, "")` step of
`checksum_address` and `strip_prefix("0x").unwrap_or(..)` in
`verify_message` (the two bytes removed are ASCII, so byte- and
character-level removal agree). -/
def strip0x (s : List Nat) : List Nat :=
  if s.take 2 = str "0x" then s.drop 2 else s

/-- Value of one hex digit (both cases), as accepted by the hex decoder
behind `ethereum_types::Address::from_str`. -/
def hexDigitVal (c : Nat) : Option Nat :=
  if 48 ≤ c ∧ c ≤ 57 then some (c - 48)
  else if 97 ≤ c ∧ c ≤ 102 then some (c - 87)
  else if 65 ≤ c ∧ c ≤ 70 then some (c - 55)
  else Option.none

/-- Hex decoding of a character sequence into bytes; fails on a non-hex
character or an odd length. -/
def parseHexBytes : List Nat → Option (List Nat)
  | [] => some []
  | [_] => Option.none
  | c1 :: c2 :: rest =>
    match hexDigitVal c1, hexDigitVal c2, parseHexBytes rest with
    | some h, some l, some bs => some ((16 * h + l) :: bs)
    | _, _, _ => Option.none

/-- Behaviour of the external `ethereum_types::Address::from_str` (the
`fixed_hash`/`rustc_hex` crates): exactly 40 hex characters decode to the
20 address bytes, anything else is a format error. -/
def address_from_hex_str (s : List Nat) : Except String (List Nat) :=
  if s.length = 40 then
    match parseHexBytes s with
    | some bs => Except.ok bs
    | Option.none => Except.error "invalid hex character"
  else Except.error "invalid hex length"

/-- `SignedMessage::addr_from_str` (sign.rs lines 85-91): requires the
literal `"0x"` marker, then parses the remainder as a 20-byte address. -/
def addr_from_str (address : List Nat) : Except String (List Nat) :=
  if ¬ (address.take 2 = str "0x") then
    Except.error "Address must be prefixed with 0x"
  else address_from_hex_str (address.drop 2)

/-- The character loop of `checksum_address` (sign.rs lines 54-68) over the
stripped lowercased address, carrying the running character index.  A
decimal digit is emitted unchanged; any other character selects its case
from bit `7 - 4*(i % 2)` of hash byte `i / 2`.  `Option.none` models the
panic of the out-of-bounds index `hash[i / 2]`. -/
def checksumChars (hash : List Nat) : Nat → List Nat → Option (List Nat)
  | _, [] => some []
  | i, c :: rest =>
    if isDigitCode c then
      (checksumChars hash (i + 1) rest).map (fun cs => c :: cs)
    else
      match hash.get? (i / 2) with
      | Option.none => Option.none
      | some b =>
        (checksumChars hash (i + 1) rest).map (fun cs =>
          (if b &&& (1 <<< (7 - 4 * (i % 2))) ≠ 0 then toUpperCode c
           else toLowerCode c) :: cs)

/-- `SignedMessage::checksum_address` (sign.rs lines 44-71): lowercase the
address, strip an optional `"0x"`, keccak-hash the UTF-8 bytes of the
result, recase character by character, and prepend the `"0x"` marker.  The
keccak256 primitive (the external `sha3` crate) is a parameter. -/
def checksum_address (keccak : List Nat → List Nat) (address : List Nat) :
    Option (List Nat) :=
  let addr := strip0x (address.map toLowerCode)
  let hash := keccak (strBytes addr)
  match checksumChars hash 0 addr with
  | some cs => some (str "0x" ++ cs)
  | Option.none => Option.none

/-- `SignedMessage::is_valid_checksum_addr` (sign.rs lines 73-75): the
original address compared with its checksum encoding. -/
def is_valid_checksum_addr (keccak : List Nat → List Nat) (address : List Nat) :
    Option Bool :=
  (checksum_address keccak address).map (fun res => address == res)

/-- `SignedMessage::valid_addr_from_str` (sign.rs lines 77-83):
`addr_from_str` first, then the checksum test. -/
def valid_addr_from_str (keccak : List Nat → List Nat) (address : List Nat) :
    Option (Except String (List Nat)) :=
  match addr_from_str address with
  | Except.error e => some (Except.error e)
  | Except.ok addr =>
    match is_valid_checksum_addr keccak address with
    | Option.none => Option.none
    | some false => some (Except.error "Invalid address checksum")
    | some true => some (Except.ok addr)

/-- Spec-level shape predicate for an address string: the fixed 2-character
marker followed by exactly 40 hex characters. -/
def addrFormatOk (address : List Nat) : Prop :=
  address.take 2 = str "0x" ∧ (address.drop 2).length = 40 ∧
    ∀ c ∈ address.drop 2, (hexDigitVal c).isSome

instance (address : List Nat) : Decidable (addrFormatOk address) := by
  unfold addrFormatOk
  infer_instance

/-! ## Message hashing, signing and verification (`src/sign.rs`) -/

/-- The `SignedMessage` claim (sign.rs lines 22-27). -/
structure SignedMessage where
  address : List Nat
  date_message : List Nat
  signature : List Nat
deriving DecidableEq, Repr

/-- The fixed personal-message marker `"\x19Ethereum Signed Message:\n"`. -/
def ethMessageMarker : List Nat := str "\x19Ethereum Signed Message:\n"

/-- `SignedMessage::sign_message_hash` (sign.rs lines 30-40): keccak256 of
the UTF-8 bytes of `format!("{}{}{}", marker, date_message.len(),
date_message)` — `str::len` being the UTF-8 byte length.  The function
reads only `self.date_message`, so it is modelled on that field. -/
def sign_message_hash (keccak : List Nat → List Nat) (date_message : List Nat) :
    List Nat :=
  keccak (strBytes (ethMessageMarker ++
    decimalCodes (strBytes date_message).length ++ date_message))

/-- One lowercase hex character (what `Display` for the external signature
type emits). -/
def hexCharLower (v : Nat) : Nat := if v < 10 then 48 + v else 87 + v

/-- Lowercase hex rendering of a byte sequence. -/
def toHexChars (bs : List Nat) : List Nat :=
  bs.flatMap (fun b => [hexCharLower (b / 16), hexCharLower (b % 16)])

/-- `SignedMessage::sign_message` (sign.rs lines 93-101).  `ecSign` is the
external `ethkey::sign` primitive (secret, 32-byte hash → 65-byte
recoverable signature or error).  The source calls `.unwrap()` on its
result, so a primitive failure is a panic (`Option.none`); on success the
claim is returned with `signature` set to `format!("0x{}", signature)` and
the function's result is `Ok(())`. -/
def sign_message (keccak : List Nat → List Nat)
    (ecSign : List Nat → List Nat → Except String (List Nat))
    (secret : List Nat) (m : SignedMessage) :
    Option (SignedMessage × Except String Unit) :=
  let message_hash := sign_message_hash keccak m.date_message
  match ecSign secret message_hash with
  | Except.error _ => Option.none
  | Except.ok signature =>
    some (⟨m.address, m.date_message, str "0x" ++ toHexChars signature⟩,
      Except.ok ())

/-- Behaviour of the external `ethkey::Signature::from_str`: 130 hex
characters decoding to the 65 signature bytes, anything else an error. -/
def signature_from_str (s : List Nat) : Except String (List Nat) :=
  match parseHexBytes s with
  | some bs =>
    if bs.length = 65 then Except.ok bs else Except.error "invalid signature length"
  | Option.none => Except.error "invalid signature hex"

/-- `SignedMessage::verify_message` (sign.rs lines 103-122).  The external
chrono parser for the fixed date format is the `parseDate` parameter
(returning a comparable instant), the wall clock is the `now` parameter,
and `verifyAddress` is the external `ethkey::verify_address` primitive
(address bytes, signature bytes, 32-byte hash).  Steps, in source order:
parse the date (propagating its error); return `Ok(false)` when `now` is
strictly after the parsed instant; compute the message hash; parse and
checksum-validate the address (propagating errors); decode the signature
after stripping an optional `"0x"` (propagating errors); delegate to
`verifyAddress`. -/
def verify_message (parseDate : List Nat → Except String Int)
    (verifyAddress : List Nat → List Nat → List Nat → Except String Bool)
    (keccak : List Nat → List Nat) (now : Int) (m : SignedMessage) :
    Option (Except String Bool) :=
  match parseDate m.date_message with
  | Except.error e => some (Except.error e)
  | Except.ok valid_until =>
    if valid_until < now then some (Except.ok false)
    else
      let message_hash := sign_message_hash keccak m.date_message
      match valid_addr_from_str keccak m.address with
      | Option.none => Option.none
      | some (Except.error e) => some (Except.error e)
      | some (Except.ok address) =>
        match signature_from_str (strip0x m.signature) with
        | Except.error e => some (Except.error e)
        | Except.ok signature => some (verifyAddress address signature message_hash)

/-! ## Store lemmas -/

lemma redisHGet_redisHSet_self (t : StatusTable) (ip : String) (v : Int) :
    redisHGet (redisHSet t ip v) ip = some v := by
  induction t with
  | nil => simp [redisHSet, redisHGet]
  | cons hd rest ih =>
    obtain ⟨k, w⟩ := hd
    by_cases hk : k = ip
    · simp [redisHSet, redisHGet, hk]
    · simp [redisHSet, redisHGet, hk, ih]

lemma from_i8_as_i8 (s : IpStatus) : IpStatus.from_i8 s.as_i8 = s := by
  cases s <;> decide

/-! ## Claim theorems for the admission store -/

/-- Claim C2: `read_ip_status` never surfaces an error: a store-level
failure and an absent key both yield `IpStatus.None`, and only a successful
lookup of a stored code yields `IpStatus.from_i8` of that code. -/
theorem claim_C2 (conn : Connection) (ip : String) :
    (∀ e, conn = Except.error e → read_ip_status conn ip = IpStatus.None) ∧
    (∀ t, conn = Except.ok t → redisHGet t ip = Option.none →
      read_ip_status conn ip = IpStatus.None) ∧
    (∀ t v, conn = Except.ok t → redisHGet t ip = some v →
      read_ip_status conn ip = IpStatus.from_i8 v) := by
  refine ⟨?_, ?_, ?_⟩
  · intro e he
    subst he
    simp [read_ip_status, hgetStatusQuery]
  · intro t ht hg
    subst ht
    simp [read_ip_status, hgetStatusQuery, hg]
  · intro t v ht hg
    subst ht
    simp [read_ip_status, hgetStatusQuery, hg]

/-- Witness for C2 at concrete connections: a failed store, a live store
without the key, and a live store holding code 1 for the key. -/
theorem claim_C2_witness :
    read_ip_status (Except.error "connection refused") "10.0.0.7" = IpStatus.None ∧
    read_ip_status (Except.ok []) "10.0.0.7" = IpStatus.None ∧
    read_ip_status (Except.ok [("10.0.0.7", 1)]) "10.0.0.7" = IpStatus.from_i8 1 := by
  refine ⟨?_, ?_, ?_⟩
  · exact (claim_C2 (Except.error "connection refused") "10.0.0.7").1
      "connection refused" rfl
  · exact (claim_C2 (Except.ok []) "10.0.0.7").2.1 [] rfl (by decide)
  · exact (claim_C2 (Except.ok [("10.0.0.7", 1)]) "10.0.0.7").2.2
      [("10.0.0.7", 1)] 1 rfl (by decide)

/-- Claim C4: `IpStatus.from_i8` maps 0 to Trusted and 1 to Blocked, and
every other integer to None. -/
theorem claim_C4 :
    IpStatus.from_i8 0 = IpStatus.Trusted ∧
    IpStatus.from_i8 1 = IpStatus.Blocked ∧
    ∀ n : Int, n ≠ 0 → n ≠ 1 → IpStatus.from_i8 n = IpStatus.None := by
  refine ⟨rfl, rfl, ?_⟩
  intro n h0 h1
  unfold IpStatus.from_i8
  split
  · exact absurd rfl h0
  · exact absurd rfl h1
  · rfl

/-- Witness for C4 at the concrete out-of-range codes -1 and 42. -/
theorem claim_C4_witness :
    IpStatus.from_i8 (-1) = IpStatus.None ∧ IpStatus.from_i8 42 = IpStatus.None :=
  ⟨claim_C4.2.2 (-1) (by decide) (by decide), claim_C4.2.2 42 (by decide) (by decide)⟩

/-- Claim C8: the listing returns every stored `(ip, code)` pair with the
raw stored code (no renormalisation through `from_i8`), and a store failure
yields the empty listing instead of an error. -/
theorem claim_C8 (t : StatusTable) (e : String) :
    read_ip_status_list (Except.error e) = [] ∧
    read_ip_status_list (Except.ok t) = t ∧
    get_ip_status_list (Except.ok t) = t.map (fun v => ⟨v.1, v.2⟩) ∧
    (∀ ip code, (ip, code) ∈ t →
      (⟨ip, code⟩ : IpStatusPayload) ∈ get_ip_status_list (Except.ok t)) := by
  refine ⟨rfl, rfl, rfl, ?_⟩
  intro ip code hmem
  simp only [get_ip_status_list, read_ip_status_list, List.mem_map]
  exact ⟨(ip, code), hmem, rfl⟩

/-- Witness for C8: a stored out-of-range code 42 is listed verbatim as 42. -/
theorem claim_C8_witness :
    (⟨"10.0.0.1", 42⟩ : IpStatusPayload) ∈
      get_ip_status_list (Except.ok [("10.0.0.1", 42)]) :=
  (claim_C8 [("10.0.0.1", 42)] "down").2.2.2 "10.0.0.1" 42 (by decide)

/-- Claim C10: on a functioning store, inserting any status for an ip and
reading that ip back returns the same status: the stored integer code of
each variant round-trips through `IpStatus.from_i8`. -/
theorem claim_C10 (t : StatusTable) (ip : String) (s : IpStatus) :
    read_ip_status (insert_ip_status (Except.ok t) ip s) ip = s := by
  simp only [insert_ip_status, read_ip_status, hgetStatusQuery,
    redisHGet_redisHSet_self, from_i8_as_i8]

/-! ## Character and checksum lemmas -/

lemma str_0x : str "0x" = [48, 120] := rfl

lemma take_two_cons (a b : Nat) (l : List Nat) : (a :: b :: l).take 2 = [a, b] := rfl

lemma strip0x_cons_0x (l : List Nat) : strip0x (48 :: 120 :: l) = l := by
  unfold strip0x
  rw [take_two_cons, str_0x, if_pos rfl]
  rfl

lemma toLowerCode_idem (c : Nat) : toLowerCode (toLowerCode c) = toLowerCode c := by
  unfold toLowerCode
  split_ifs <;> omega

lemma toLowerCode_toUpperCode (c : Nat) (h : toLowerCode c = c) :
    toLowerCode (toUpperCode c) = c := by
  unfold toLowerCode at h
  unfold toLowerCode toUpperCode
  split_ifs at h ⊢ <;> omega

lemma mem_strip0x (l : List Nat) (c : Nat) (h : c ∈ strip0x l) : c ∈ l := by
  unfold strip0x at h
  split at h
  · exact List.drop_subset 2 l h
  · exact h

lemma lowered_of_mem_map (a : List Nat) (c : Nat) (h : c ∈ a.map toLowerCode) :
    toLowerCode c = c := by
  obtain ⟨x, _, rfl⟩ := List.mem_map.mp h
  exact toLowerCode_idem x

/-- Lowercasing the output of the checksum loop recovers its (already
lowercased) input. -/
lemma checksumChars_map_toLower (hash : List Nat) (l : List Nat) :
    ∀ (i : Nat) (cs : List Nat), checksumChars hash i l = some cs →
      (∀ c ∈ l, toLowerCode c = c) → cs.map toLowerCode = l := by
  induction l with
  | nil =>
    intro i cs h _
    unfold checksumChars at h
    cases h
    rfl
  | cons c rest ih =>
    intro i cs h hlow
    have hc : toLowerCode c = c := hlow c (List.mem_cons_self c rest)
    have hrest : ∀ x ∈ rest, toLowerCode x = x :=
      fun x hx => hlow x (List.mem_cons_of_mem c hx)
    unfold checksumChars at h
    cases hdig : isDigitCode c with
    | true =>
      rw [hdig, if_pos rfl] at h
      obtain ⟨cs', hcs', rfl⟩ := Option.map_eq_some'.mp h
      simp only [List.map_cons, hc, ih (i + 1) cs' hcs' hrest]
    | false =>
      rw [hdig] at h
      simp only [Bool.false_eq_true, if_false] at h
      cases hg : hash.get? (i / 2) with
      | none => rw [hg] at h; cases h
      | some b =>
        rw [hg] at h
        obtain ⟨cs', hcs', rfl⟩ := Option.map_eq_some'.mp h
        simp only [List.map_cons, ih (i + 1) cs' hcs' hrest]
        by_cases hbit : b &&& (1 <<< (7 - 4 * (i % 2))) ≠ 0
        · rw [if_pos hbit, toLowerCode_toUpperCode c hc]
        · rw [if_neg hbit, toLowerCode_idem, hc]

/-- Claim C7: the checksum encoding is idempotent — re-encoding an encoded
address returns it unchanged — and hence every produced encoding is
checksum-valid. -/
theorem claim_C7 (keccak : List Nat → List Nat) (a r : List Nat)
    (h : checksum_address keccak a = some r) :
    checksum_address keccak r = some r ∧
    is_valid_checksum_addr keccak r = some true := by
  have key : checksum_address keccak r = some r := by
    simp only [checksum_address] at h
    cases hcc : checksumChars (keccak (strBytes (strip0x (a.map toLowerCode)))) 0
        (strip0x (a.map toLowerCode)) with
    | none => rw [hcc] at h; cases h
    | some cs =>
      rw [hcc] at h
      cases h
      have hlow : ∀ c ∈ strip0x (a.map toLowerCode), toLowerCode c = c :=
        fun c hc => lowered_of_mem_map a c (mem_strip0x _ c hc)
      have hmap : cs.map toLowerCode = strip0x (a.map toLowerCode) :=
        checksumChars_map_toLower _ _ 0 cs hcc hlow
      have hstrip : strip0x ((str "0x" ++ cs).map toLowerCode) =
          strip0x (a.map toLowerCode) := by
        rw [List.map_append, hmap,
          show (str "0x").map toLowerCode = [48, 120] from rfl]
        exact strip0x_cons_0x (strip0x (a.map toLowerCode))
      simp only [checksum_address, hstrip, hcc]
  refine ⟨key, ?_⟩
  rw [is_valid_checksum_addr, key]
  simp

/-- Witness for C7 at the concrete address `"0xAB12"` with an all-ones
hash: the encoding (which is the address itself) re-encodes to itself and
is checksum-valid. -/
theorem claim_C7_witness :
    checksum_address (fun _ => List.replicate 32 255) (str "0xAB12") =
      some (str "0xAB12") ∧
    is_valid_checksum_addr (fun _ => List.replicate 32 255) (str "0xAB12") =
      some true :=
  claim_C7 (fun _ => List.replicate 32 255) (str "0xAB12") (str "0xAB12") (by decide)

/-- The checksum loop succeeds whenever every index it visits keeps
`i / 2` inside the 32-byte hash. -/
lemma checksumChars_total (hash : List Nat) (h32 : hash.length = 32)
    (l : List Nat) : ∀ i : Nat, i + l.length ≤ 64 →
    ∃ cs, checksumChars hash i l = some cs := by
  induction l with
  | nil => exact fun i _ => ⟨[], rfl⟩
  | cons c rest ih =>
    intro i hle
    simp only [List.length_cons] at hle
    obtain ⟨cs', hcs'⟩ := ih (i + 1) (by omega)
    cases hdig : isDigitCode c with
    | true =>
      refine ⟨c :: cs', ?_⟩
      unfold checksumChars
      rw [hdig, if_pos rfl, hcs']
      rfl
    | false =>
      have hidx : i / 2 < hash.length := by rw [h32]; omega
      cases hg : hash.get? (i / 2) with
      | none =>
        rw [List.get?_eq_none] at hg
        omega
      | some b =>
        refine ⟨(if b &&& (1 <<< (7 - 4 * (i % 2))) ≠ 0 then toUpperCode c
          else toLowerCode c) :: cs', ?_⟩
        unfold checksumChars
        rw [hdig, hg]
        simp only [Bool.false_eq_true, if_false, hcs', Option.map_some']

/-- The checksum loop panics when some visited non-digit character sits at
an overall index of 64 or beyond. -/
lemma checksumChars_oob (hash : List Nat) (h32 : hash.length = 32)
    (l : List Nat) : ∀ (i j c : Nat), l.get? j = some c →
    isDigitCode c = false → 64 ≤ i + j →
    checksumChars hash i l = Option.none := by
  induction l with
  | nil =>
    intro i j c hj
    simp at hj
  | cons d rest ih =>
    intro i j c hj hdig hge
    cases j with
    | zero =>
      rw [List.get?_cons_zero] at hj
      cases hj
      have hnone : hash.get? (i / 2) = Option.none :=
        List.get?_eq_none.mpr (by rw [h32]; omega)
      unfold checksumChars
      rw [hdig, hnone]
      simp
    | succ j' =>
      have hrest := ih (i + 1) j' c (by simpa using hj) hdig (by omega)
      unfold checksumChars
      cases hdig2 : isDigitCode d with
      | true =>
        rw [if_pos rfl, hrest]
        rfl
      | false =>
        cases hg : hash.get? (i / 2) with
        | none => simp
        | some b => simp [hrest]

/-- Shape extracted from a successful `addr_from_str`: the literal marker
followed by a 40-character remainder. -/
lemma addr_from_str_ok_shape (a : List Nat) (bs : List Nat)
    (h : addr_from_str a = Except.ok bs) :
    ∃ t : List Nat, a = 48 :: 120 :: t ∧ t.length = 40 := by
  unfold addr_from_str at h
  split at h
  · cases h
  · rename_i hpre
    rw [not_not] at hpre
    match a, hpre with
    | a1 :: a2 :: t, hpre =>
      rw [take_two_cons, str_0x] at hpre
      obtain ⟨rfl, rfl⟩ : a1 = 48 ∧ a2 = 120 := by
        simpa using hpre
      refine ⟨t, rfl, ?_⟩
      unfold address_from_hex_str at h
      split at h
      · simpa using ‹(List.drop 2 (48 :: 120 :: t)).length = 40›
      · cases h

/-- The stripped lowercased form of a shape-valid address has exactly 40
characters. -/
lemma strip_lower_of_shape (t : List Nat) :
    strip0x ((48 :: 120 :: t).map toLowerCode) = t.map toLowerCode := by
  have h48 : toLowerCode 48 = 48 := rfl
  have h120 : toLowerCode 120 = 120 := rfl
  rw [List.map_cons, List.map_cons, h48, h120, strip0x_cons_0x]

/-- Claim C9: the checksum computation indexes the 32-byte hash in bounds
whenever the stripped lowercased address has at most 64 characters (so in
particular after `addr_from_str` has validated the 40-character shape, as
`valid_addr_from_str` does before the checksum test), while a non-digit
character at index 64 or beyond of the stripped form makes the direct call
panic. -/
theorem claim_C9 (keccak : List Nat → List Nat)
    (h32 : ∀ bs, (keccak bs).length = 32) (a : List Nat) :
    ((strip0x (a.map toLowerCode)).length ≤ 64 →
      ∃ r, checksum_address keccak a = some r) ∧
    (∀ j c, (strip0x (a.map toLowerCode)).get? j = some c →
      isDigitCode c = false → 64 ≤ j →
      checksum_address keccak a = Option.none) ∧
    (∀ bs, addr_from_str a = Except.ok bs →
      ∃ b, is_valid_checksum_addr keccak a = some b) := by
  refine ⟨?_, ?_, ?_⟩
  · intro hlen
    obtain ⟨cs, hcs⟩ :=
      checksumChars_total (keccak (strBytes (strip0x (a.map toLowerCode))))
        (h32 _) (strip0x (a.map toLowerCode)) 0 (by omega)
    exact ⟨str "0x" ++ cs, by simp only [checksum_address, hcs]⟩
  · intro j c hj hdig hge
    have hnone :=
      checksumChars_oob (keccak (strBytes (strip0x (a.map toLowerCode))))
        (h32 _) (strip0x (a.map toLowerCode)) 0 j c hj hdig (by omega)
    simp only [checksum_address, hnone]
  · intro bs h
    obtain ⟨t, rfl, hlen⟩ := addr_from_str_ok_shape a bs h
    have hstrip := strip_lower_of_shape t
    obtain ⟨cs, hcs⟩ :=
      checksumChars_total
        (keccak (strBytes (strip0x ((48 :: 120 :: t).map toLowerCode))))
        (h32 _) (strip0x ((48 :: 120 :: t).map toLowerCode)) 0
        (by rw [hstrip, List.length_map]; omega)
    refine ⟨(48 :: 120 :: t) == (str "0x" ++ cs), ?_⟩
    simp only [is_valid_checksum_addr, checksum_address, hcs, Option.map_some']

/-- Witness for C9: a short address encodes without panic; a 65-character
address of 64 digits followed by the letter `f` panics; a shape-valid
address reaches the checksum test without panic. -/
theorem claim_C9_witness :
    (∃ r, checksum_address (fun _ => List.replicate 32 0) (str "0x") = some r) ∧
    checksum_address (fun _ => List.replicate 32 0)
      (List.replicate 64 48 ++ [102]) = Option.none ∧
    (∃ b, is_valid_checksum_addr (fun _ => List.replicate 32 0)
      (str "0xaaaaaaaaaaaaaaaaaaaaaaaaaaaaaaaaaaaaaaaa") = some b) := by
  refine ⟨?_, ?_, ?_⟩
  · exact (claim_C9 (fun _ => List.replicate 32 0) (fun _ => by simp)
      (str "0x")).1 (by decide)
  · exact (claim_C9 (fun _ => List.replicate 32 0) (fun _ => by simp)
      (List.replicate 64 48 ++ [102])).2.1 64 102 (by decide) (by decide) (by decide)
  · exact (claim_C9 (fun _ => List.replicate 32 0) (fun _ => by simp)
      (str "0xaaaaaaaaaaaaaaaaaaaaaaaaaaaaaaaaaaaaaaaa")).2.2
      (List.replicate 20 170) (by decide)

/-- Hex decoding succeeds on an even-length all-hex string, producing one
byte per character pair. -/
theorem parseHexBytes_some : ∀ s : List Nat, s.length % 2 = 0 →
    (∀ c ∈ s, (hexDigitVal c).isSome) →
    ∃ bs, parseHexBytes s = some bs ∧ bs.length = s.length / 2
  | [], _, _ => ⟨[], rfl, rfl⟩
  | [c], h, _ => by simp at h
  | c1 :: c2 :: rest, h, hall => by
    obtain ⟨v1, hv1⟩ := Option.isSome_iff_exists.mp (hall c1 (by simp))
    obtain ⟨v2, hv2⟩ := Option.isSome_iff_exists.mp (hall c2 (by simp))
    obtain ⟨bs, hbs, hlen⟩ := parseHexBytes_some rest
      (by simp only [List.length_cons] at h; omega)
      (fun c hc => hall c (by simp [hc]))
    refine ⟨(16 * v1 + v2) :: bs, ?_, ?_⟩
    · unfold parseHexBytes
      rw [hv1, hv2, hbs]
    · simp only [List.length_cons, hlen]
      omega

/-- Hex decoding fails as soon as the string holds one non-hex character. -/
theorem parseHexBytes_badchar : ∀ (s : List Nat) (c : Nat), c ∈ s →
    hexDigitVal c = Option.none → parseHexBytes s = Option.none
  | [], c, h, _ => absurd h (List.not_mem_nil c)
  | [_], _, _, _ => rfl
  | c1 :: c2 :: rest, c, h, hn => by
    unfold parseHexBytes
    rcases List.mem_cons.mp h with rfl | h2
    · cases hexDigitVal c2 <;> cases parseHexBytes rest <;> rw [hn]
    · rcases List.mem_cons.mp h2 with rfl | h3
      · cases hexDigitVal c1 <;> cases parseHexBytes rest <;> rw [hn]
      · rw [parseHexBytes_badchar rest c h3 hn]
        cases hexDigitVal c1 <;> cases hexDigitVal c2 <;> rfl

/-- On a shape-valid address `addr_from_str` returns the 20 decoded bytes. -/
lemma addr_from_str_ok_of_format (a : List Nat) (h : addrFormatOk a) :
    ∃ bs, addr_from_str a = Except.ok bs ∧ bs.length = 20 ∧
      parseHexBytes (a.drop 2) = some bs := by
  obtain ⟨h1, h2, h3⟩ := h
  obtain ⟨bs, hbs, hlen⟩ := parseHexBytes_some (a.drop 2) (by omega) h3
  refine ⟨bs, ?_, by omega, hbs⟩
  unfold addr_from_str address_from_hex_str
  rw [if_neg (by simp [h1]), if_pos h2, hbs]

/-- On a shape-invalid address `addr_from_str` fails, and never with the
checksum-mismatch message. -/
lemma addr_from_str_error_of_bad (a : List Nat) (h : ¬ addrFormatOk a) :
    ∃ e, addr_from_str a = Except.error e ∧ e ≠ "Invalid address checksum" := by
  unfold addrFormatOk at h
  push_neg at h
  by_cases h1 : a.take 2 = str "0x"
  · by_cases h2 : (a.drop 2).length = 40
    · obtain ⟨c, hc, hnone⟩ := h h1 h2
      have hcn : hexDigitVal c = Option.none :=
        Option.not_isSome_iff_eq_none.mp hnone
      refine ⟨"invalid hex character", ?_, by decide⟩
      unfold addr_from_str address_from_hex_str
      rw [if_neg (by simp [h1]), if_pos h2,
        parseHexBytes_badchar (a.drop 2) c hc hcn]
    · refine ⟨"invalid hex length", ?_, by decide⟩
      unfold addr_from_str address_from_hex_str
      rw [if_neg (by simp [h1]), if_neg h2]
  · refine ⟨"Address must be prefixed with 0x", ?_, by decide⟩
    unfold addr_from_str
    rw [if_pos h1]

/-- Claim C5: `valid_addr_from_str` fails with a format error (never the
checksum message) when the marker is missing or the remainder is not
exactly 40 hex characters; on a shape-valid address whose string differs
from its checksum encoding it fails with the checksum-mismatch message; and
on a shape-valid, checksum-clean address it returns the 20 parsed address
bytes. -/
theorem claim_C5 (keccak : List Nat → List Nat) (a : List Nat) :
    (¬ addrFormatOk a →
      ∃ e, valid_addr_from_str keccak a = some (Except.error e) ∧
        e ≠ "Invalid address checksum") ∧
    (∀ r, addrFormatOk a → checksum_address keccak a = some r → a ≠ r →
      valid_addr_from_str keccak a =
        some (Except.error "Invalid address checksum")) ∧
    (∀ r, addrFormatOk a → checksum_address keccak a = some r → a = r →
      ∃ bs, valid_addr_from_str keccak a = some (Except.ok bs) ∧
        bs.length = 20 ∧ parseHexBytes (a.drop 2) = some bs) := by
  refine ⟨?_, ?_, ?_⟩
  · intro h
    obtain ⟨e, he, hne⟩ := addr_from_str_error_of_bad a h
    exact ⟨e, by simp only [valid_addr_from_str, he], hne⟩
  · intro r hfmt hcs hne
    obtain ⟨bs, hok, _, _⟩ := addr_from_str_ok_of_format a hfmt
    have hfalse : (a == r) = false := beq_eq_false_iff_ne.mpr hne
    have hv : is_valid_checksum_addr keccak a = some false := by
      rw [is_valid_checksum_addr, hcs, Option.map_some', hfalse]
    simp only [valid_addr_from_str, hok, hv]
  · intro r hfmt hcs heq
    obtain ⟨bs, hok, hlen, hparse⟩ := addr_from_str_ok_of_format a hfmt
    have hv : is_valid_checksum_addr keccak a = some true := by
      rw [is_valid_checksum_addr, hcs, Option.map_some', heq, beq_self_eq_true]
    exact ⟨bs, by simp only [valid_addr_from_str, hok, hv], hlen, hparse⟩

/-- Witness for C5 covering its three cases: a marker-less string, a
shape-valid address whose case pattern mismatches its encoding (under the
all-zero hash the encoding is all-lowercase), and an all-lowercase address
that equals its encoding. -/
theorem claim_C5_witness :
    (∃ e, valid_addr_from_str (fun _ => List.replicate 32 0) (str "zz") =
      some (Except.error e) ∧ e ≠ "Invalid address checksum") ∧
    valid_addr_from_str (fun _ => List.replicate 32 0)
      (str "0xAaaaaaaaaaaaaaaaaaaaaaaaaaaaaaaaaaaaaaaa") =
      some (Except.error "Invalid address checksum") ∧
    (∃ bs, valid_addr_from_str (fun _ => List.replicate 32 0)
      (str "0xaaaaaaaaaaaaaaaaaaaaaaaaaaaaaaaaaaaaaaaa") =
      some (Except.ok bs) ∧ bs.length = 20 ∧
      parseHexBytes ((str "0xaaaaaaaaaaaaaaaaaaaaaaaaaaaaaaaaaaaaaaaa").drop 2) =
        some bs) := by
  refine ⟨?_, ?_, ?_⟩
  · exact (claim_C5 (fun _ => List.replicate 32 0) (str "zz")).1 (by decide)
  · exact (claim_C5 (fun _ => List.replicate 32 0)
      (str "0xAaaaaaaaaaaaaaaaaaaaaaaaaaaaaaaaaaaaaaaa")).2.1
      (str "0xaaaaaaaaaaaaaaaaaaaaaaaaaaaaaaaaaaaaaaaa")
      (by decide) (by decide) (by decide)
  · exact (claim_C5 (fun _ => List.replicate 32 0)
      (str "0xaaaaaaaaaaaaaaaaaaaaaaaaaaaaaaaaaaaaaaaa")).2.2
      (str "0xaaaaaaaaaaaaaaaaaaaaaaaaaaaaaaaaaaaaaaaa")
      (by decide) (by decide) (by decide)

/-! ## Message hashing, signing and verification claims -/

lemma strBytes_append (s t : List Nat) :
    strBytes (s ++ t) = strBytes s ++ strBytes t := by
  simp [strBytes]

/-- Claim C6: the message hash is keccak256 of the fixed marker bytes, then
the decimal digits of the byte length (not the character count) of
`date_message`, then the UTF-8 bytes of `date_message`. -/
theorem claim_C6 (keccak : List Nat → List Nat) (d : List Nat) :
    sign_message_hash keccak d =
      keccak (strBytes ethMessageMarker ++
        strBytes (decimalCodes (strBytes d).length) ++ strBytes d) := by
  unfold sign_message_hash
  rw [strBytes_append, strBytes_append]

/-- Claim C1: whenever the date parser succeeds and the parsed instant is
strictly before `now`, `verify_message` returns `Ok(false)` — not an error
and not a panic — regardless of the address and signature fields, because
the expiry test precedes address parsing, checksum validation and signature
decoding. -/
theorem claim_C1 (parseDate : List Nat → Except String Int)
    (verifyAddress : List Nat → List Nat → List Nat → Except String Bool)
    (keccak : List Nat → List Nat) (now : Int) (m : SignedMessage) (t : Int)
    (hp : parseDate m.date_message = Except.ok t) (hlt : t < now) :
    verify_message parseDate verifyAddress keccak now m =
      some (Except.ok false) := by
  simp [verify_message, hp, hlt]

/-- Witness for C1: a concrete expired claim (parsed instant 0, clock at 1)
with empty — hence malformed — address and signature fields still verifies
to `Ok(false)`. -/
theorem claim_C1_witness :
    verify_message (fun _ => Except.ok 0) (fun _ _ _ => Except.ok true)
      (fun _ => List.replicate 32 0) 1 ⟨[], [], []⟩ =
      some (Except.ok false) :=
  claim_C1 (fun _ => Except.ok 0) (fun _ _ _ => Except.ok true)
    (fun _ => List.replicate 32 0) 1 ⟨[], [], []⟩ 0 rfl (by decide)

/-- Evaluation of `sign_message` at a failing signing primitive: the
`.unwrap()` on the primitive's result panics (modelled `Option.none`)
instead of returning the `CryptoError` to the caller that the specification
promises. -/
theorem claim_C3_code_bug :
    sign_message (fun _ => List.replicate 32 0)
      (fun _ _ => Except.error "secp256k1 failure")
      (List.replicate 32 0) ⟨[], [], []⟩ = Option.none := rfl

end AtomicDexAuth
